import Mathlib

/-
  Verification of the Run/Thread Orchestration Engine of the
  openai-assistants-link repository.

  The Python sources are shallowly embedded: each definition below mirrors a
  function of the repository (file and symbol named in its doc comment).
  The remote API is modelled by explicit parameters (a chronological list of
  remote records stands for the remote feed; an `Except` value stands for a
  Python call that may raise).
-/

namespace OpenAILink

/-! ## Step synchronizer (src/app/lib/openai/openai_run.py)

A run step.  The remote id is modelled as a `Nat` (ids are opaque strings in
the source); `status` stands for the rest of the step payload, so two
fetched versions of the same step differ in `status`. -/
structure RunStep where
  id : Nat
  status : Nat
deriving DecidableEq, Repr

/-- Ids of a list of steps. -/
def ids (l : List RunStep) : List Nat := l.map RunStep.id

/-- The last `n` elements of a list, in order. -/
def lastN (n : Nat) (l : List RunStep) : List RunStep := l.drop (l.length - n)

/-- The remote call `client.beta.threads.runs.steps.list(..., limit, after)`
followed by `list(reversed(response.data))`: the remote returns steps in descending
chronological order and the code reverses them, so against a chronological
remote feed the result is the last `limit` steps before the `after` cursor
(the cursor paginates in descending order, i.e. to strictly older steps). -/
def fetchStepsPage (remote : List RunStep) (afterCursor : Option Nat)
    (limit : Nat) : List RunStep :=
  match afterCursor with
  | none => lastN limit remote
  | some i => lastN limit (remote.takeWhile (fun rs => rs.id ≠ i))

/-- One insertion into the Python dict `{rs.id: rs for rs in run_steps}`:
a later value with an already-present key overwrites in place, a new key is
appended (Python dicts preserve insertion order). -/
def dictInsert (d : List RunStep) (rs : RunStep) : List RunStep :=
  if d.any (fun x => x.id = rs.id) then
    d.map (fun x => if x.id = rs.id then rs else x)
  else d ++ [rs]

/-- The Python dict comprehension `{rs.id: rs for rs in run_steps}` as an
insertion-ordered association list. -/
def buildDict (l : List RunStep) : List RunStep := l.foldl dictInsert []

/-- The dict operation `new_steps_dict.pop(i)`: the looked-up value and the
dict without the key. -/
def dictPop (d : List RunStep) (i : Nat) : Option RunStep × List RunStep :=
  (d.find? (fun rs => rs.id = i), d.filter (fun rs => rs.id ≠ i))

/-- The backward replacement walk of `refresh_run_steps_async`
(openai_run.py lines 127-131), applied to the known steps *in reverse*:
while the id of the current entry is in the dict, replace the entry with the
fresher version and pop it; at the first absent id, stop (everything older is
left untouched).  Returns the walked list (still reversed) and the remaining
dict. -/
def mergeWalk : List RunStep → List RunStep → List RunStep × List RunStep
  | [], d => ([], d)
  | s :: rest, d =>
    match dictPop d s.id with
    | (some fresh, d2) =>
      let r := mergeWalk rest d2
      (fresh :: r.1, r.2)
    | (none, _) => (s :: rest, d)

/-- Lines 125-133 of openai_run.py: build the dict from the fetched steps,
walk the known steps from the end backward replacing fresher versions, then
append the still-unconsumed fetched steps in their fetched order. -/
def refreshMerge (steps runSteps : List RunStep) : List RunStep :=
  let d := buildDict runSteps
  let r := mergeWalk steps.reverse d
  r.1.reverse ++ r.2

/-- The pagination `while` loop of `refresh_run_steps_async` (lines
102-123).  `max_fetched = 100`, `limit = 50`, `max_attempts = 100/50 + 2 = 4`;
the fuel argument is the number of attempts still allowed, so the loop body
runs while `attempts < 4` as in the source.  `latest` is
`latest_step_id` (`none` when `self.steps` was empty, in which case the
membership test `rs.id == latest_step_id` never succeeds). -/
def paginateSteps (remote : List RunStep) (latest : Option Nat) :
    Nat → List RunStep → Nat → Bool → List RunStep
  | 0, runSteps, _, _ => runSteps
  | fuel + 1, runSteps, total, missing =>
    match runSteps with
    | [] => []
    | h :: t =>
      if missing ∧ total < 100 then
        let page := fetchStepsPage remote (some h.id) 50
        let missing2 := if page.any (fun rs => some rs.id = latest) then false
          else missing
        paginateSteps remote latest fuel (page ++ h :: t)
          (total + page.length) missing2
      else h :: t

/-- `OpenAIRun.refresh_run_steps_async` (openai_run.py lines 59-133) against
an unchanged remote feed: fetch the newest page, return unchanged when it is
empty, paginate backward while the previously-known latest step is missing,
then merge.  The new value of `self.steps` is returned. -/
def refreshRunSteps (remote : List RunStep) (steps : List RunStep) :
    List RunStep :=
  let runSteps := fetchStepsPage remote none 50
  if runSteps = [] then steps
  else
    let latest := steps.getLast?.map RunStep.id
    let missing := match latest with
      | none => true
      | some l => !(runSteps.any (fun rs => rs.id = l))
    let runSteps2 := paginateSteps remote latest 4 runSteps runSteps.length
      missing
    refreshMerge steps runSteps2

/-- `RunMonitor.refresh_run_steps_async` (openai_run.py lines 246-316):
textually the same algorithm except that it has no early return on an empty
first page. -/
def refreshRunStepsMonitor (remote : List RunStep) (steps : List RunStep) :
    List RunStep :=
  let runSteps := fetchStepsPage remote none 50
  let latest := steps.getLast?.map RunStep.id
  let missing := match latest with
    | none => true
    | some l => !(runSteps.any (fun rs => rs.id = l))
  let runSteps2 := paginateSteps remote latest 4 runSteps runSteps.length
    missing
  refreshMerge steps runSteps2

/-! ## Tool dispatcher (src/app/lib/openai/openai_tool.py) and run executor
(src/app/lib/openai/openai_run.py) -/

/-- The behaviour of one registered Python callable on the JSON argument
string supplied by the remote agent.  `ret v` is a successful return whose
final packaged string (after the `return_string`/`json.dumps` step of
`call_function_tool`) is `v`; `err m` is an ordinary exception whose
`str()` is `m` (this also covers a `json.loads` failure on the argument
string); `cancel d` is a raised `CancelRun(d)` (utils.py), whose payload is
modelled as a `Nat`. -/
inductive FnOutcome where
  | ret (v : String)
  | err (msg : String)
  | cancel (data : Nat)
deriving DecidableEq, Repr

/-- The `Function` part of a tool: its registered name and its callable. -/
structure ToolFunction where
  name : String
  fn : String → FnOutcome

/-- An `OpenAITool` (openai_tool.py): non-function tools (retrieval,
code_interpreter) carry no `function`. -/
structure OpenAITool where
  type : String
  function : Option ToolFunction

/-- A Python exception escaping `call_function_tool`: either the dedicated
`CancelRun` signal or any other exception rendered by `str()`. -/
inductive PyExc where
  | cancelRun (data : Nat)
  | generic (msg : String)
deriving DecidableEq, Repr

/-- The generator expression of openai_tool.py lines 224-231: the first tool
that has a `function` whose name matches. -/
def findTool (tools : List OpenAITool) (function_name : String) :
    Option ToolFunction :=
  tools.findSome? (fun t =>
    match t.function with
    | some f => if f.name = function_name then some f else none
    | none => none)

/-- `call_function_tool` (openai_tool.py lines 213-254): look the tool up by
function name, raising `ValueError(f"Could not find function '{name}'")`
when absent, then invoke the callable; an exception raised by the callable
(or by parsing the JSON arguments) propagates, and a `CancelRun` propagates
as itself. -/
def call_function_tool (tools : List OpenAITool) (function_name : String)
    (function_arguments_json : String) : Except PyExc String :=
  match findTool tools function_name with
  | none => .error (.generic
      ("Could not find function \x27" ++ function_name ++ "\x27"))
  | some f =>
    match f.fn function_arguments_json with
    | .ret v => .ok v
    | .err m => .error (.generic m)
    | .cancel d => .error (.cancelRun d)

/-- A tool call of a `requires_action` payload. -/
structure ToolCall where
  id : Nat
  name : String
  arguments : String
deriving DecidableEq, Repr

/-- One entry of the submitted batch:
`dict(tool_call_id=tool_call.id, output=output or "")`. -/
structure ToolOutput where
  tool_call_id : Nat
  output : String
deriving DecidableEq, Repr

/-- The per-call loop of `_handle_step_requires_action` (openai_run.py lines
170-186): each call is resolved; a `CancelRun` is re-raised and aborts the
whole batch (`Except.error` with its payload); any other exception becomes
the output string `f"Error calling function {name}: {exc}"`; otherwise the
returned string is the output. -/
def handle_tool_calls (tools : List OpenAITool) :
    List ToolCall → Except Nat (List ToolOutput)
  | [] => .ok []
  | tc :: rest =>
    match call_function_tool tools tc.name tc.arguments with
    | .error (.cancelRun d) => .error d
    | .error (.generic m) =>
      (handle_tool_calls tools rest).map
        (fun outs => ⟨tc.id, "Error calling function " ++ tc.name ++ ": " ++ m⟩ :: outs)
    | .ok out => (handle_tool_calls tools rest).map (fun outs => ⟨tc.id, out⟩ :: outs)

/-- The output string the handler loop pairs with a call id when no
`CancelRun` interrupts it: the returned string on success, the
`f"Error calling function {name}: {exc}"` string on any other exception. -/
def outputFor (tools : List OpenAITool) (tc : ToolCall) : String :=
  match call_function_tool tools tc.name tc.arguments with
  | .ok v => v
  | .error (.generic m) => "Error calling function " ++ tc.name ++ ": " ++ m
  | .error (.cancelRun _) => ""

/-- Whether a dispatch result is an escaping `CancelRun`. -/
def isCancelResult : Except PyExc String → Bool
  | .error (.cancelRun _) => true
  | _ => false

/-- The `required_action` payload of a run.  In the remote API it is only
present while the status is `requires_action`; the code reads it only after
that status check, so it is modelled as a plain field. -/
structure RequiredAction where
  type : String
  tool_calls : List ToolCall
deriving DecidableEq, Repr

/-- The remotely-owned run object as the executor sees it after a create or
refresh. -/
structure RunObj where
  status : String
  required_action : RequiredAction
deriving DecidableEq, Repr

/-- `OpenAIRun._handle_step_requires_action` (openai_run.py lines 162-192):
nothing happens unless the status is `requires_action` and the required
action type is `submit_tool_outputs`; otherwise the whole batch is resolved
and submitted in one `submit_tool_outputs` call.  `ok none` means no submit
call was made, `ok (some outs)` means `outs` was submitted as one batch,
`error d` means a `CancelRun` with payload `d` escaped before any submit. -/
def handle_step_requires_action (tools : List OpenAITool) (run : RunObj) :
    Except Nat (Option (List ToolOutput)) :=
  if run.status = "requires_action" then
    if run.required_action.type = "submit_tool_outputs" then
      (handle_tool_calls tools run.required_action.tool_calls).map some
    else .ok none
  else .ok none

/-- The auxiliary `self.data` dict of an `OpenAIRun`: initially `{}`, set to
`{"tool_outputs": outs}` by the handler, and overwritten wholesale with the
`CancelRun` payload on cancellation. -/
inductive RunData where
  | dict (tool_outputs : Option (List ToolOutput))
  | payload (d : Nat)
deriving DecidableEq, Repr

/-- The tuple `("queued", "in_progress", "requires_action")` of the loop
guard at openai_run.py line 215. -/
def nonTerminalStatuses : List String :=
  ["queued", "in_progress", "requires_action"]

/-- The observable outcome of `run_async`: the final local `self.run`, the
final `self.data`, every batch submitted via `submit_tool_outputs`, and
whether a remote `cancel` request was issued. -/
structure RunFinal where
  run : RunObj
  data : RunData
  submissions : List (List ToolOutput)
  cancelIssued : Bool
deriving DecidableEq, Repr

/-- The polling loop of `OpenAIRun.run_async` (openai_run.py lines 214-226).
`r` is the current local `self.run`; `trace` lists the run objects returned
by the successive `refresh_async` calls (the remote's behaviour over time);
`none` means the modelled trace was exhausted while the loop was still
polling.  On a `CancelRun` the code issues a remote cancel, stores the
payload in `self.data`, and then calls `self.refresh_async()` WITHOUT
awaiting it (line 226), so the local run object is never refreshed on this
path: the final `self.run` is the value the loop last held. -/
def run_async_loop (tools : List OpenAITool) :
    RunObj → RunData → List (List ToolOutput) → List RunObj → Option RunFinal
  | r, dat, subs, trace =>
    if r.status ∈ nonTerminalStatuses then
      match (if r.status = "requires_action" then
          handle_step_requires_action tools r else .ok none) with
      | .error d => some ⟨r, .payload d, subs, true⟩
      | .ok batch =>
        let subs2 := subs ++ (match batch with | some b => [b] | none => [])
        let dat2 := match batch with | some b => .dict (some b) | none => dat
        match trace with
        | [] => none
        | r2 :: rest => run_async_loop tools r2 dat2 subs2 rest
    else some ⟨r, dat, subs, false⟩

/-- The four terminal statuses of the specification's data model. -/
def specTerminalStatuses : List String :=
  ["completed", "failed", "cancelled", "expired"]

/-! ## Annotation processing (src/app/lib/openai/openai_annotations.py) -/

/-- A character-level prefix test used by the replace model below. -/
def startsWithChars : List Char → List Char → Bool
  | _, [] => true
  | [], _ :: _ => false
  | c :: s, p :: ps => c = p && startsWithChars s ps

/-- Removal of every (non-overlapping, left-to-right) occurrence of `pat`,
fuel-indexed so it is structurally recursive; one character is consumed per
step, so fuel equal to the length of the string is always enough. -/
def removeSubFuel (pat : List Char) : Nat → List Char → List Char
  | 0, s => s
  | _ + 1, [] => []
  | fuel + 1, c :: rest =>
    if pat ≠ [] ∧ startsWithChars (c :: rest) pat then
      removeSubFuel pat fuel ((c :: rest).drop pat.length)
    else c :: removeSubFuel pat fuel rest

/-- The Python call `s.replace(pat, "")`: every occurrence of `pat` is
removed (with an empty pattern nothing changes, as in Python when the
replacement is the empty string). -/
def strRemove (s pat : String) : String :=
  ⟨removeSubFuel pat.data s.data.length s.data⟩

/-- Decidable equality for `Except`, needed so the message structures below
can be compared by `decide`. -/
instance {ε α : Type} [DecidableEq ε] [DecidableEq α] :
    DecidableEq (Except ε α) := fun x y =>
  match x, y with
  | .ok a, .ok b =>
    if h : a = b then .isTrue (by rw [h])
    else .isFalse (by intro hh; cases hh; exact h rfl)
  | .error a, .error b =>
    if h : a = b then .isTrue (by rw [h])
    else .isFalse (by intro hh; cases hh; exact h rfl)
  | .ok _, .error _ => .isFalse (by intro hh; cases hh)
  | .error _, .ok _ => .isFalse (by intro hh; cases hh)

/-- The `file_citation` part of an annotation.  Reading `file_id` from a
malformed object raises, hence the `Except`; the id itself may be `None`
(`none`) or a string. -/
structure FileCitationPart where
  file_id : Except Unit (Option String)
  quote : String
deriving DecidableEq, Repr

/-- The `file_path` part of an annotation, as for `FileCitationPart`. -/
structure FilePathPart where
  file_id : Except Unit (Option String)
deriving DecidableEq, Repr

/-- An annotation object attached to a text content block.  `text` is the
literal annotated substring; `none` models a malformed object whose `text`
is not a string, so that `str.replace` raises on it.  `file_citation` and
`file_path` model `getattr(annotation, ..., None)`. -/
structure Annot where
  text : Option String
  file_citation : Option FileCitationPart
  file_path : Option FilePathPart
deriving DecidableEq, Repr

/-- A text content block: `message.content[i].text`. -/
structure TextBlock where
  value : String
  annotations : List Annot
deriving DecidableEq, Repr

/-- One entry of `message.content`.  A non-text block (an image) has no
`text` attribute, modelled by `none`; reading `.text` on it raises. -/
structure ContentBlock where
  text : Option TextBlock
deriving DecidableEq, Repr

/-- A thread message as returned by the remote API. -/
structure ThreadMessage where
  id : Nat
  content : List ContentBlock
deriving DecidableEq, Repr

/-- The file object returned by `client.files.retrieve`. -/
structure FileInfo where
  filename : String
deriving DecidableEq, Repr

/-- The environment for `client.files.retrieve(file_id)`: a lookup that may
raise. -/
def FileLookup : Type := String → Except Unit FileInfo

/-- The `for index, annotation in enumerate(annotations)` loop of
`remove_from_message`: remove each annotation's literal `text` from the
running value via `str.replace`; a malformed annotation whose `text` is not
a string makes `replace` raise. -/
def removeAnnotTexts : String → List Annot → Except Unit String
  | acc, [] => .ok acc
  | acc, a :: rest =>
    match a.text with
    | none => .error ()
    | some t => removeAnnotTexts (strRemove acc t) rest

/-- `OpenAIAnnotations.remove_from_message` (openai_annotations.py lines
30-47): read `message.content[0].text` (raising when there is no first
content block or it has no text part), then run the removal loop over its
annotations. -/
def remove_from_message (message : ThreadMessage) : Except Unit String :=
  match message.content.head? with
  | none => .error ()
  | some block =>
    match block.text with
    | none => .error ()
    | some tb => removeAnnotTexts tb.value tb.annotations

/-- One extracted citation dictionary (the `"annotation"` payload entry,
a dump of the original object, is not modelled). -/
structure Citation where
  ctype : String
  value : String
deriving DecidableEq, Repr

/-- The `for index, annotation in enumerate(message_annotations)` loop of
`extract_from_message`: a `file_citation` with a non-empty id is looked up
and rendered as `f"{quote} from {filename}"`, a `file_path` with a
non-empty id as `f"Click <here> to download {filename}"`; reading a
malformed id or a failing file lookup raises out of the whole loop. -/
def extractLoop (lookup : FileLookup) : List Annot → Except Unit (List Citation)
  | [] => .ok []
  | a :: rest =>
    match a.file_citation with
    | some fc => do
      let fid ← fc.file_id
      match fid with
      | some s =>
        if s ≠ "" then do
          let cited ← lookup s
          let tail ← extractLoop lookup rest
          .ok (⟨"file_citation", fc.quote ++ " from " ++ cited.filename⟩ :: tail)
        else extractLoop lookup rest
      | none => extractLoop lookup rest
    | none =>
      match a.file_path with
      | some fp => do
        let fid ← fp.file_id
        match fid with
        | some s =>
          if s ≠ "" then do
            let cited ← lookup s
            let tail ← extractLoop lookup rest
            .ok (⟨"file_download", "Click <here> to download " ++ cited.filename⟩ :: tail)
          else extractLoop lookup rest
        | none => extractLoop lookup rest
      | none => extractLoop lookup rest

/-- The body of the `try` of `OpenAIAnnotations.extract_from_message`
(openai_annotations.py lines 52-85): read `message.content[0].text` and
walk its annotations. -/
def extract_core (lookup : FileLookup) (message : ThreadMessage) :
    Except Unit (List Citation) :=
  match message.content.head? with
  | none => .error ()
  | some block =>
    match block.text with
    | none => .error ()
    | some tb => extractLoop lookup tb.annotations

/-- `OpenAIAnnotations.extract_from_message` (lines 49-92): any exception in
the body is caught and an empty list returned. -/
def extract_from_message (lookup : FileLookup) (message : ThreadMessage) :
    List Citation :=
  match extract_core lookup message with
  | .ok l => l
  | .error _ => []

/-- The result dictionary of `remove_and_extract_from_message`. -/
structure CleanedMessage where
  content : String
  citations : List Citation
deriving DecidableEq, Repr

/-- `OpenAIAnnotations.remove_and_extract_from_message` (lines 94-119): on
success, the cleaned content plus the extracted citations; if anything in
the `try` raises, the fallback returns `message.content[0].text.value` with
no citations — an access that itself raises (`Except.error`) when the
message has no first text content block. -/
def remove_and_extract_from_message (lookup : FileLookup)
    (message : ThreadMessage) : Except Unit CleanedMessage :=
  match remove_from_message message with
  | .ok cleaned => .ok ⟨cleaned, extract_from_message lookup message⟩
  | .error _ =>
    match message.content.head? with
    | some block =>
      match block.text with
      | some tb => .ok ⟨tb.value, []⟩
      | none => .error ()
    | none => .error ()

/-! ## Chat service (src/app/lib/services/chat.py) -/

/-- The fixed friendly fallback reply of `ChatService.chat` (line 292) and
`OpenAIAssistant.chat_async`. -/
def fallbackErrorMessage : String :=
  "Oops! It seems like we\x27re experiencing technical difficulties right now. Our team is actively working to resolve the issue. Please check back shortly. Thank you for your patience."

/-- A service-layer message (app/lib/models/conversations.py): the fields
`ChatService.chat` sets on its responses. -/
structure SvcMessage where
  role : String
  content : String
  metadata_error : Option String
deriving DecidableEq, Repr

/-- `AssistantResponseData` (app/lib/models/assistant.py). -/
structure AssistantResponseData where
  message : SvcMessage
  conversation_id : String
deriving DecidableEq, Repr

/-- `AssistantResponse` (app/lib/models/assistant.py); `error` defaults to
`None`. -/
structure AssistantResponse where
  success : Bool
  data : AssistantResponseData
  error : Option String
deriving DecidableEq, Repr

/-- The successful outcome of `ai_assistant.chat_async` as consumed by
`ChatService.chat`: the assistant reply message and the conversation id it
reads from that message's metadata. -/
structure ChatTurnOk where
  assistant_message : SvcMessage
  conversation_id : String
deriving DecidableEq, Repr

/-- `ChatService.chat` (chat.py lines 163-305).  The collaborators are
modelled by their outcomes: whether the assistant row and the AI assistant
loaded, whether a non-empty `conversation_id` resolved to a conversation,
and the outcome of the conversational turn (`Except` whose error is
`str(e)` for the exception that escaped anywhere inside the `try`).  The
outer `except` builds the fixed fallback message with
`metadata={"error": str(e)}` and `success=False`. -/
def chatService (assistantFound : Bool) (aiAssistantFound : Bool)
    (conversation_id : Option String) (conversationFound : Bool)
    (turn : Except String ChatTurnOk) : AssistantResponse :=
  if !assistantFound then
    ⟨false,
      ⟨⟨"ASSISTANT", "Error loading the Assistant. It may not exist - please verify the assistant id and environment.", none⟩, ""⟩,
      some "Error loading the Assistant. It may not exist - please verify the assistant id and environment."⟩
  else if !aiAssistantFound then
    ⟨false,
      ⟨⟨"ASSISTANT", "Error loading the AI Assistant from OpenAI. It may not exist or this is probably an old assistant that needs to be recreated.", none⟩, ""⟩,
      some "Error loading the AI Assistant from OpenAI. It may not exist or this is probably an old assistant that needs to be recreated."⟩
  else if conversation_id ≠ none ∧ conversation_id ≠ some "" ∧ !conversationFound then
    ⟨false,
      ⟨⟨"ASSISTANT", "Error loading the conversation. It may not exist - please verify the conversation id and environment. If the issue persists, please try creating a new conversation.", none⟩, ""⟩,
      some "Error loading the Conversation. It may not exist - please verify the conversation id and environment."⟩
  else
    match turn with
    | .ok t => ⟨true, ⟨t.assistant_message, t.conversation_id⟩, none⟩
    | .error e =>
      ⟨false,
        ⟨⟨"ASSISTANT", fallbackErrorMessage, some e⟩,
          (conversation_id.getD "")⟩, none⟩

/-! ## Thread monitor (src/app/lib/openai/openai_thread.py) -/

/-- The remote call made by `OpenAIThread.get_messages(after_message, limit)`
(openai_thread.py lines 72-115) against a chronological feed: the code asks
the remote for descending-order messages with `before := after_message`
(the caller's `after` inverted), then reverses the page, which yields the
first `limit` messages strictly after the cursor in chronological order. -/
def get_messages (feed : List ThreadMessage) (after_message : Option Nat)
    (limit : Nat) : List ThreadMessage :=
  match after_message with
  | none => feed.take limit
  | some i => ((feed.dropWhile (fun m => m.id ≠ i)).drop 1).take limit

/-- The per-message emptiness filter of `ThreadMonitor.get_latest_messages`
(lines 217-224): a message is skipped when any of its content blocks has a
text part whose value is the empty string. -/
def filterPopulated (messages : List ThreadMessage) : List ThreadMessage :=
  messages.filter (fun m => !(m.content.any (fun c => c.text.any (fun t => t.value = ""))))

/-- The `while True` loop of `ThreadMonitor.get_latest_messages` (lines
206-232), fuel-indexed because the real loop need not terminate (`none`
models a pass that never finishes within the given fuel).  Each iteration
fetches up to 20 messages after `last_message_id`, filters out unpopulated
ones, advances `last_message_id` to the last filtered message (when any),
and stops — returning only the CURRENT page's filtered messages — once a
short page is fetched. -/
def get_latest_messages (feed : List ThreadMessage) :
    Option Nat → Nat → Option (List ThreadMessage × Option Nat)
  | _, 0 => none
  | last_message_id, fuel + 1 =>
    let messages := get_messages feed last_message_id 20
    let filtered_messages := filterPopulated messages
    let last2 := match filtered_messages.getLast? with
      | some m => some m.id
      | none => last_message_id
    if messages.length < 20 then some (filtered_messages, last2)
    else get_latest_messages feed last2 fuel

/-! ## Lemmas about the step-synchronizer merge -/

theorem mergeWalk_nil_dict (l : List RunStep) : mergeWalk l [] = (l, []) := by
  cases l <;> rfl

theorem refreshMerge_nil (steps : List RunStep) : refreshMerge steps [] = steps := by
  simp [refreshMerge, buildDict, mergeWalk_nil_dict]

theorem paginateSteps_nil (remote : List RunStep) (latest : Option Nat)
    (fuel total : Nat) (missing : Bool) :
    paginateSteps remote latest fuel [] total missing = [] := by
  cases fuel <;> rfl

theorem paginateSteps_not_missing (remote : List RunStep) (latest : Option Nat)
    (fuel : Nat) (rs : List RunStep) (total : Nat) :
    paginateSteps remote latest fuel rs total false = rs := by
  cases fuel with
  | zero => rfl
  | succ n => cases rs with
    | nil => rfl
    | cons h t => simp [paginateSteps]

theorem find?_id_of_not_mem {x : RunStep} {l1 : List RunStep}
    (l2 : List RunStep) (h : x.id ∉ ids l1) :
    List.find? (fun rs => rs.id = x.id) (l1 ++ x :: l2) = some x := by
  induction l1 with
  | nil => simp
  | cons a t ih =>
    have ha : ¬ ((fun rs => decide (rs.id = x.id)) a = true) := by
      simp only [decide_eq_true_eq]
      intro hh
      exact h (by simp [ids, hh])
    have ht : x.id ∉ ids t := fun hm => h (by simp [ids] at hm ⊢; exact Or.inr hm)
    simpa using (List.find?_cons_of_neg (t ++ x :: l2) ha).trans (ih ht)

theorem filter_ne_id_of_not_mem {x : RunStep} {l1 l2 : List RunStep}
    (h1 : x.id ∉ ids l1) (h2 : x.id ∉ ids l2) :
    List.filter (fun rs => rs.id ≠ x.id) (l1 ++ x :: l2) = l1 ++ l2 := by
  have hl1 : List.filter (fun rs => rs.id ≠ x.id) l1 = l1 :=
    List.filter_eq_self.mpr (fun a ha => by
      simp only [decide_eq_true_eq]
      intro hh
      exact h1 (by simp [ids]; exact ⟨a, ha, hh⟩))
  have hl2 : List.filter (fun rs => rs.id ≠ x.id) l2 = l2 :=
    List.filter_eq_self.mpr (fun a ha => by
      simp only [decide_eq_true_eq]
      intro hh
      exact h2 (by simp [ids]; exact ⟨a, ha, hh⟩))
  rw [List.filter_append, List.filter_cons,
    if_neg (by simp : ¬ ((fun rs => decide (rs.id ≠ x.id)) x = true)), hl1, hl2]

theorem dictPop_middle {y : RunStep} {dl dr : List RunStep}
    (h1 : y.id ∉ ids dl) (h2 : y.id ∉ ids dr) :
    dictPop (dl ++ y :: dr) y.id = (some y, dl ++ dr) := by
  unfold dictPop
  rw [find?_id_of_not_mem dr h1, filter_ne_id_of_not_mem h1 h2]

theorem not_mem_of_nodup_middle {α : Type} {a : α} {l1 l2 : List α}
    (h : (l1 ++ a :: l2).Nodup) : a ∉ l1 ∧ a ∉ l2 := by
  rw [List.nodup_append] at h
  obtain ⟨-, h2, hdisj⟩ := h
  refine ⟨fun hm => hdisj hm (List.mem_cons_self a l2), ?_⟩
  exact (List.nodup_cons.mp h2).1

theorem mergeWalk_consume :
    ∀ (C e d1 d2 rest : List RunStep), ids C = ids e →
    (ids (d1 ++ e.reverse ++ d2)).Nodup →
    mergeWalk (C ++ rest) (d1 ++ e.reverse ++ d2)
      = (e ++ (mergeWalk rest (d1 ++ d2)).1, (mergeWalk rest (d1 ++ d2)).2) := by
  intro C
  induction C with
  | nil =>
    intro e d1 d2 rest he hnd
    have hm : List.map RunStep.id e = [] := by simpa [ids] using he.symm
    have he0 : e = [] := List.map_eq_nil_iff.mp hm
    subst he0
    simp
  | cons c C' ih =>
    intro e d1 d2 rest he hnd
    obtain ⟨y, e', rfl⟩ : ∃ y e', e = y :: e' := by
      cases e with
      | nil => simp [ids] at he
      | cons y e' => exact ⟨y, e', rfl⟩
    obtain ⟨hid, hids'⟩ :
        c.id = y.id ∧ List.map RunStep.id C' = List.map RunStep.id e' := by
      simpa [ids] using he
    have hre : d1 ++ (y :: e').reverse ++ d2 = (d1 ++ e'.reverse) ++ y :: d2 := by
      simp [List.reverse_cons, List.append_assoc]
    have hnd' : (ids ((d1 ++ e'.reverse) ++ y :: d2)).Nodup := by
      rw [← hre]; exact hnd
    have hnd'' : (ids (d1 ++ e'.reverse) ++ y.id :: ids d2).Nodup := by
      simpa [ids, List.map_append] using hnd'
    obtain ⟨hy1, hy2⟩ := not_mem_of_nodup_middle hnd''
    have hpop : dictPop ((d1 ++ e'.reverse) ++ y :: d2) c.id
        = (some y, (d1 ++ e'.reverse) ++ d2) := by
      rw [hid]; exact dictPop_middle hy1 hy2
    have hnd2 : (ids (d1 ++ e'.reverse ++ d2)).Nodup := by
      have hsub : (d1 ++ e'.reverse ++ d2).Sublist
          ((d1 ++ e'.reverse) ++ y :: d2) :=
        (List.sublist_cons_self y d2).append_left (d1 ++ e'.reverse)
      exact List.Nodup.sublist (hsub.map RunStep.id) hnd'
    have ihr := ih e' d1 d2 rest hids' hnd2
    calc mergeWalk ((c :: C') ++ rest) (d1 ++ (y :: e').reverse ++ d2)
        = mergeWalk (c :: (C' ++ rest)) ((d1 ++ e'.reverse) ++ y :: d2) := by
          rw [hre]; rfl
      _ = (y :: (mergeWalk (C' ++ rest) ((d1 ++ e'.reverse) ++ d2)).1,
            (mergeWalk (C' ++ rest) ((d1 ++ e'.reverse) ++ d2)).2) := by
          simp only [mergeWalk, hpop]
      _ = ((y :: e') ++ (mergeWalk rest (d1 ++ d2)).1,
            (mergeWalk rest (d1 ++ d2)).2) := by
          rw [ihr]
          simp

theorem dictInsert_new (d : List RunStep) (h : RunStep) (hna : h.id ∉ ids d) :
    dictInsert d h = d ++ [h] := by
  unfold dictInsert
  rw [if_neg]
  intro hc
  obtain ⟨x, hx, hxe⟩ := List.any_eq_true.mp hc
  exact hna (by simp [ids]; exact ⟨x, hx, by simpa using hxe⟩)

theorem buildDict_go : ∀ (l acc : List RunStep), (ids (acc ++ l)).Nodup →
    List.foldl dictInsert acc l = acc ++ l := by
  intro l
  induction l with
  | nil => intro acc _; simp
  | cons h t ih =>
    intro acc hnd
    have hna : h.id ∉ ids acc := by
      have h2 : (ids acc ++ h.id :: ids t).Nodup := by
        simpa [ids, List.map_append] using hnd
      exact (not_mem_of_nodup_middle h2).1
    have step : List.foldl dictInsert acc (h :: t)
        = List.foldl dictInsert (acc ++ [h]) t := by
      simp [List.foldl_cons, dictInsert_new acc h hna]
    rw [step, ih (acc ++ [h]) (by simpa [ids] using hnd)]
    simp

theorem buildDict_eq_self (l : List RunStep) (hnd : (ids l).Nodup) :
    buildDict l = l := by
  have := buildDict_go l [] (by simpa [ids] using hnd)
  simpa [buildDict] using this

theorem refreshMerge_suffix_aligned (A B FP : List RunStep)
    (h : ids B = ids FP) (hnd : (ids FP).Nodup) :
    refreshMerge (A ++ B) FP = A ++ FP := by
  unfold refreshMerge
  rw [buildDict_eq_self FP hnd]
  have hC : ids B.reverse = ids FP.reverse := by
    simp [ids, List.map_reverse]
    simpa [ids] using h
  have hN : (ids ([] ++ (FP.reverse).reverse ++ [])).Nodup := by
    simpa [List.reverse_reverse] using hnd
  have key := mergeWalk_consume B.reverse FP.reverse [] [] A.reverse hC hN
  simp only [List.nil_append, List.append_nil, List.reverse_reverse] at key
  rw [mergeWalk_nil_dict] at key
  dsimp only
  rw [List.reverse_append, key]
  simp

theorem refreshMerge_superset (steps FP : List RunStep) (k : Nat)
    (h : ids steps = (ids FP).drop k) (hnd : (ids FP).Nodup) :
    refreshMerge steps FP = FP.drop k ++ FP.take k := by
  unfold refreshMerge
  rw [buildDict_eq_self FP hnd]
  have hC : ids steps.reverse = ids ((FP.drop k).reverse) := by
    simp [ids, List.map_reverse, List.map_drop]
    simpa [ids] using h
  have hdict : FP.take k ++ ((FP.drop k).reverse).reverse ++ [] = FP := by
    simp [List.take_append_drop]
  have hN : (ids (FP.take k ++ ((FP.drop k).reverse).reverse ++ [])).Nodup := by
    rw [hdict]; exact hnd
  have key := mergeWalk_consume steps.reverse ((FP.drop k).reverse)
    (FP.take k) [] [] hC hN
  rw [hdict] at key
  simp only [List.append_nil] at key
  dsimp only
  rw [key]
  simp [mergeWalk]

theorem refreshMerge_rotation (FP : List RunStep) (k : Nat)
    (hnd : (ids FP).Nodup) :
    refreshMerge (FP.drop k ++ FP.take k) FP = FP.drop k ++ FP.take k := by
  unfold refreshMerge
  rw [buildDict_eq_self FP hnd]
  have hrev : (FP.drop k ++ FP.take k).reverse
      = (FP.take k).reverse ++ (FP.drop k).reverse := by
    simp [List.reverse_append]
  have hndDrop : (ids (FP.drop k)).Nodup := by
    have : (ids (FP.drop k)) = (ids FP).drop k := by
      simp [ids, List.map_drop]
    rw [this]
    exact List.Nodup.sublist (List.drop_sublist _ _) hnd
  have key2 := mergeWalk_consume ((FP.drop k).reverse) ((FP.drop k).reverse)
    [] [] [] rfl (by simpa using hndDrop)
  simp only [List.nil_append, List.append_nil, List.reverse_reverse,
    mergeWalk] at key2
  have hdict1 : ([] : List RunStep) ++ ((FP.take k).reverse).reverse
      ++ FP.drop k = FP := by
    simp [List.take_append_drop]
  have hN1 : (ids (([] : List RunStep) ++ ((FP.take k).reverse).reverse
      ++ FP.drop k)).Nodup := by
    rw [hdict1]; exact hnd
  have key1 := mergeWalk_consume ((FP.take k).reverse) ((FP.take k).reverse)
    [] (FP.drop k) ((FP.drop k).reverse) rfl hN1
  rw [hdict1] at key1
  simp only [List.nil_append] at key1
  dsimp only
  rw [hrev, key1, key2]
  simp

theorem suffix_eq_of_length {α : Type} {l l1 l2 : List α}
    (h1 : l1 <:+ l) (h2 : l2 <:+ l) (hl : l1.length = l2.length) : l1 = l2 := by
  rcases List.suffix_or_suffix_of_suffix h1 h2 with h | h
  · exact h.eq_of_length hl
  · exact (h.eq_of_length hl.symm).symm

theorem refreshRunSteps_latest_in_page (remote steps : List RunStep)
    (h : ∃ s, steps.getLast? = some s
      ∧ s.id ∈ ids (fetchStepsPage remote none 50)) :
    refreshRunSteps remote steps
      = refreshMerge steps (fetchStepsPage remote none 50) := by
  obtain ⟨s, hlast, hmem⟩ := h
  have hFPne : fetchStepsPage remote none 50 ≠ [] := by
    intro hc
    rw [hc] at hmem
    simp [ids] at hmem
  have hany : (fetchStepsPage remote none 50).any
      (fun rs => rs.id = s.id) = true := by
    rw [List.any_eq_true]
    simp only [ids, List.mem_map] at hmem
    obtain ⟨rs, hrs, hid⟩ := hmem
    exact ⟨rs, hrs, by simpa using hid⟩
  unfold refreshRunSteps
  rw [if_neg hFPne]
  dsimp only
  rw [hlast]
  simp only [Option.map_some', hany, Bool.not_true]
  rw [paginateSteps_not_missing]

/-- The length of the first fetched page: the newest `min 50 n` steps. -/
theorem fetchStepsPage_first_length (remote : List RunStep) :
    (fetchStepsPage remote none 50).length
      = remote.length - (remote.length - 50) := by
  simp [fetchStepsPage, lastN]

theorem ids_fetchStepsPage_first (remote : List RunStep) :
    ids (fetchStepsPage remote none 50)
      = (ids remote).drop (remote.length - 50) := by
  simp [fetchStepsPage, lastN, ids, List.map_drop]

/-- C4 (amended): against an unchanged remote feed with distinct step ids,
a known step list that is a non-empty id-aligned suffix of the feed is left
identical by a second consecutive `refresh_run_steps_async`, and previously
present steps are never reordered (the prior id sequence is a prefix of the
refreshed id sequence).  For an arbitrary known list the idempotence half is
false — see the counterexample theorem. -/
theorem refresh_run_steps_idempotent_on_aligned (remote steps : List RunStep)
    (hnd : (ids remote).Nodup) (hne : steps ≠ [])
    (hsuf : ids steps <:+ ids remote) :
    refreshRunSteps remote (refreshRunSteps remote steps)
        = refreshRunSteps remote steps
      ∧ ids steps <+: ids (refreshRunSteps remote steps) := by
  have hidsne : ids steps ≠ [] := by
    intro hc
    have hm : List.map RunStep.id steps = [] := by simpa [ids] using hc
    exact hne (List.map_eq_nil_iff.mp hm)
  have hRidsne : ids remote ≠ [] := by
    intro hc
    obtain ⟨t, ht⟩ := hsuf
    rw [hc] at ht
    exact hidsne (List.append_eq_nil.mp ht).2
  have hRne : remote ≠ [] := by
    intro hc
    exact hRidsne (by simp [hc, ids])
  have hFPne : fetchStepsPage remote none 50 ≠ [] := by
    intro hc
    have hlen := fetchStepsPage_first_length remote
    rw [hc] at hlen
    have hp : 0 < remote.length := List.length_pos.mpr hRne
    simp at hlen
    omega
  have hsufFP : ids (fetchStepsPage remote none 50) <:+ ids remote := by
    rw [ids_fetchStepsPage_first]
    exact List.drop_suffix _ _
  have hndFP : (ids (fetchStepsPage remote none 50)).Nodup := by
    rw [ids_fetchStepsPage_first]
    exact List.Nodup.sublist (List.drop_sublist _ _) hnd
  have hFPidsne : ids (fetchStepsPage remote none 50) ≠ [] := by
    intro hc
    have hm : List.map RunStep.id (fetchStepsPage remote none 50) = [] := by
      simpa [ids] using hc
    exact hFPne (List.map_eq_nil_iff.mp hm)
  -- the last id of any non-empty suffix of the feed is the feed's last id
  have hlast_suffix : ∀ (X : List Nat), X <:+ ids remote → X ≠ [] →
      X.getLast? = (ids remote).getLast? := by
    intro X hX hXne
    obtain ⟨t, ht⟩ := hX
    rw [← ht]
    exact (List.getLast?_append_of_ne_nil t hXne).symm
  -- pass 1 computes a merge with the first page
  have hlastSteps : ∃ s, steps.getLast? = some s
      ∧ s.id ∈ ids (fetchStepsPage remote none 50) := by
    refine ⟨steps.getLast hne, List.getLast?_eq_getLast steps hne, ?_⟩
    have h1 : (ids steps).getLast? = some (steps.getLast hne).id := by
      rw [ids, List.getLast?_map, List.getLast?_eq_getLast steps hne]
      rfl
    have h2 : (ids (fetchStepsPage remote none 50)).getLast?
        = some (steps.getLast hne).id := by
      rw [hlast_suffix _ hsufFP hFPidsne, ← hlast_suffix _ hsuf hidsne, h1]
    exact List.mem_of_mem_getLast? h2
  have heq1 := refreshRunSteps_latest_in_page remote steps hlastSteps
  rcases le_or_lt (fetchStepsPage remote none 50).length steps.length
    with hle | hlt
  -- case A: the known list is at least as long as the first page
  · have hidsB : ids (steps.drop (steps.length
        - (fetchStepsPage remote none 50).length))
        = ids (fetchStepsPage remote none 50) := by
      apply suffix_eq_of_length (l := ids remote)
      · have : ids (steps.drop (steps.length
            - (fetchStepsPage remote none 50).length))
            = (ids steps).drop (steps.length
              - (fetchStepsPage remote none 50).length) := by
          simp [ids, List.map_drop]
        rw [this]
        exact (List.drop_suffix _ _).trans hsuf
      · exact hsufFP
      · simp [ids]
        omega
    have hmerge1 : refreshRunSteps remote steps
        = steps.take (steps.length - (fetchStepsPage remote none 50).length)
          ++ fetchStepsPage remote none 50 := by
      rw [heq1]
      conv_lhs => rw [← List.take_append_drop (steps.length
        - (fetchStepsPage remote none 50).length) steps]
      exact refreshMerge_suffix_aligned _ _ _ hidsB hndFP
    have hlast2 : ∃ s, (steps.take (steps.length
        - (fetchStepsPage remote none 50).length)
          ++ fetchStepsPage remote none 50).getLast? = some s
        ∧ s.id ∈ ids (fetchStepsPage remote none 50) := by
      refine ⟨(fetchStepsPage remote none 50).getLast hFPne, ?_, ?_⟩
      · rw [List.getLast?_append_of_ne_nil _ hFPne]
        exact List.getLast?_eq_getLast _ hFPne
      · have hm : (fetchStepsPage remote none 50).getLast hFPne
            ∈ fetchStepsPage remote none 50 := List.getLast_mem hFPne
        exact List.mem_map_of_mem RunStep.id hm
    have heq2 := refreshRunSteps_latest_in_page remote _ hlast2
    constructor
    · rw [hmerge1, heq2]
      exact refreshMerge_suffix_aligned _ _ _ rfl hndFP
    · rw [hmerge1]
      have hidsB' : List.map RunStep.id (steps.drop (steps.length
          - (fetchStepsPage remote none 50).length))
          = List.map RunStep.id (fetchStepsPage remote none 50) := by
        simpa [ids] using hidsB
      have heqids : ids (steps.take (steps.length
          - (fetchStepsPage remote none 50).length)
            ++ fetchStepsPage remote none 50)
          = ids steps := by
        simp only [ids, List.map_append]
        rw [← hidsB', ← List.map_append, List.take_append_drop]
      rw [heqids]
  -- case B: the known list is shorter than the first page
  · have hk1 : 1 ≤ (fetchStepsPage remote none 50).length - steps.length := by
      omega
    have hidsS : ids steps = (ids (fetchStepsPage remote none 50)).drop
        ((fetchStepsPage remote none 50).length - steps.length) := by
      apply suffix_eq_of_length (l := ids remote)
      · exact hsuf
      · exact (List.drop_suffix _ _).trans hsufFP
      · simp [ids]
        omega
    have hmerge1 : refreshRunSteps remote steps
        = (fetchStepsPage remote none 50).drop
            ((fetchStepsPage remote none 50).length - steps.length)
          ++ (fetchStepsPage remote none 50).take
            ((fetchStepsPage remote none 50).length - steps.length) := by
      rw [heq1]
      exact refreshMerge_superset _ _ _ hidsS hndFP
    have htakene : (fetchStepsPage remote none 50).take
        ((fetchStepsPage remote none 50).length - steps.length) ≠ [] := by
      intro hc
      apply_fun List.length at hc
      simp at hc
      have : 0 < (fetchStepsPage remote none 50).length :=
        List.length_pos.mpr hFPne
      omega
    have hlast2 : ∃ s, ((fetchStepsPage remote none 50).drop
          ((fetchStepsPage remote none 50).length - steps.length)
        ++ (fetchStepsPage remote none 50).take
          ((fetchStepsPage remote none 50).length - steps.length)).getLast?
          = some s
        ∧ s.id ∈ ids (fetchStepsPage remote none 50) := by
      refine ⟨((fetchStepsPage remote none 50).take
          ((fetchStepsPage remote none 50).length - steps.length)).getLast
        htakene, ?_, ?_⟩
      · rw [List.getLast?_append_of_ne_nil _ htakene]
        exact List.getLast?_eq_getLast _ htakene
      · have hm := List.getLast_mem htakene
        have hm2 := (List.take_sublist _ _).mem hm
        exact List.mem_map_of_mem RunStep.id hm2
    have heq2 := refreshRunSteps_latest_in_page remote _ hlast2
    constructor
    · rw [hmerge1, heq2]
      exact refreshMerge_rotation _ _ hndFP
    · rw [hmerge1]
      have heqids : ids ((fetchStepsPage remote none 50).drop
            ((fetchStepsPage remote none 50).length - steps.length)
          ++ (fetchStepsPage remote none 50).take
            ((fetchStepsPage remote none 50).length - steps.length))
          = ids steps ++ ids ((fetchStepsPage remote none 50).take
            ((fetchStepsPage remote none 50).length - steps.length)) := by
        simp only [ids, List.map_append]
        congr 1
        have : ids steps = (ids (fetchStepsPage remote none 50)).drop
            ((fetchStepsPage remote none 50).length - steps.length) := hidsS
        simp only [ids] at this
        rw [this]
        simp [List.map_drop]
      rw [heqids]
      exact List.prefix_append _ _

set_option maxRecDepth 100000 in
/-- C4 counterexample: against the unchanged 51-step feed s1..s51, a known
list holding a stale s51 followed by a stale s1 is NOT left unchanged by a
second refresh — the second pass appends a duplicate of s51, so two
consecutive calls with no remote change do not produce identical lists. -/
theorem refresh_run_steps_not_idempotent_cex :
    refreshRunSteps ((List.range 51).map (fun n => ⟨n + 1, 0⟩))
        (refreshRunSteps ((List.range 51).map (fun n => ⟨n + 1, 0⟩))
          [⟨51, 99⟩, ⟨1, 99⟩])
      ≠ refreshRunSteps ((List.range 51).map (fun n => ⟨n + 1, 0⟩))
          [⟨51, 99⟩, ⟨1, 99⟩] := by
  decide

/-- C4 witness: the amended idempotence theorem applied to a concrete
two-step feed with an aligned one-step known list. -/
theorem refresh_run_steps_idempotent_on_aligned_witness :
    refreshRunSteps [⟨1, 0⟩, ⟨2, 0⟩]
        (refreshRunSteps [⟨1, 0⟩, ⟨2, 0⟩] [⟨2, 7⟩])
      = refreshRunSteps [⟨1, 0⟩, ⟨2, 0⟩] [⟨2, 7⟩]
    ∧ ids [⟨2, 7⟩] <+: ids (refreshRunSteps [⟨1, 0⟩, ⟨2, 0⟩] [⟨2, 7⟩]) :=
  refresh_run_steps_idempotent_on_aligned [⟨1, 0⟩, ⟨2, 0⟩] [⟨2, 7⟩]
    (by decide) (by decide) ⟨[1], by decide⟩

/-- C5: with a known list `[a, b, c]` of distinct ids and a fetched page
that is (after the local reversal) `[b2, c2, d]` — fresher versions of `b`
and `c` plus a new step `d` — the refreshed list is `[a, b2, c2, d]`:
`b` and `c` are replaced in place, `a` is untouched, `d` is appended. -/
theorem refresh_scenario_replace_and_append
    (a b c b2 c2 d : RunStep)
    (hb : b2.id = b.id) (hc : c2.id = c.id)
    (hnodup : [a.id, b.id, c.id, d.id].Nodup) :
    refreshRunSteps [b2, c2, d] [a, b, c] = [a, b2, c2, d] := by
  simp only [List.nodup_cons, List.mem_cons, List.mem_singleton,
    List.not_mem_nil, or_false, not_or, List.nodup_nil, and_true] at hnodup
  obtain ⟨⟨hab, hac, had⟩, ⟨hbc, hbd⟩, hcd⟩ := hnodup
  have hFP : fetchStepsPage [b2, c2, d] none 50 = [b2, c2, d] := rfl
  have heq := refreshRunSteps_latest_in_page [b2, c2, d] [a, b, c]
    ⟨c, rfl, by rw [hFP]; simp [ids, hc]⟩
  rw [heq, hFP]
  unfold refreshMerge
  rw [buildDict_eq_self [b2, c2, d] (by simp [ids, hb, hc, hbc, hbd, hcd])]
  have hwa : mergeWalk [a] ([] ++ [d]) = ([a], [d]) := by
    have hfind : List.find? (fun rs => rs.id = a.id) [d] = none := by
      rw [List.find?_cons_of_neg _ (by simpa using fun hh => had hh.symm)]
      rfl
    simp [mergeWalk, dictPop, hfind]
  have key := mergeWalk_consume [c, b] [c2, b2] [] [d] [a]
    (by simp [ids, hb, hc])
    (by simp [ids, hb, hc, hbc, hbd, hcd])
  rw [hwa] at key
  have hrev : ([a, b, c] : List RunStep).reverse = [c, b] ++ [a] := by
    simp
  dsimp only
  rw [hrev]
  have hdict : ([b2, c2, d] : List RunStep) = [] ++ [c2, b2].reverse ++ [d] := by
    simp
  rw [hdict, key]
  simp

/-- C5 witness: the scenario theorem applied at concrete steps. -/
theorem refresh_scenario_replace_and_append_witness :
    refreshRunSteps [⟨2, 5⟩, ⟨3, 5⟩, ⟨4, 0⟩] [⟨1, 0⟩, ⟨2, 0⟩, ⟨3, 0⟩]
      = [⟨1, 0⟩, ⟨2, 5⟩, ⟨3, 5⟩, ⟨4, 0⟩] :=
  refresh_scenario_replace_and_append ⟨1, 0⟩ ⟨2, 0⟩ ⟨3, 0⟩ ⟨2, 5⟩ ⟨3, 5⟩ ⟨4, 0⟩
    (by decide) (by decide) (by decide)

/-- C9: `OpenAIRun.refresh_run_steps_async` and
`RunMonitor.refresh_run_steps_async` compute the same resulting step list
for every feed and every known list; in particular, when the first fetched
page is empty both leave the known list unchanged, so the extra early
return of the `OpenAIRun` variant is behaviourally redundant. -/
theorem refresh_run_steps_eq_monitor (remote steps : List RunStep) :
    refreshRunSteps remote steps = refreshRunStepsMonitor remote steps
    ∧ (fetchStepsPage remote none 50 = [] →
        refreshRunStepsMonitor remote steps = steps) := by
  constructor
  · by_cases h : fetchStepsPage remote none 50 = []
    · unfold refreshRunSteps refreshRunStepsMonitor
      rw [h]
      simp [paginateSteps_nil, refreshMerge_nil]
    · unfold refreshRunSteps refreshRunStepsMonitor
      rw [if_neg h]
  · intro h
    unfold refreshRunStepsMonitor
    rw [h]
    simp [paginateSteps_nil, refreshMerge_nil]

/-- C9 witness: the equivalence theorem applied at a concrete feed and
known list, including the empty-page conjunct. -/
theorem refresh_run_steps_eq_monitor_witness :
    refreshRunSteps [] [⟨1, 1⟩] = refreshRunStepsMonitor [] [⟨1, 1⟩]
    ∧ refreshRunStepsMonitor [] [⟨1, 1⟩] = [⟨1, 1⟩] :=
  ⟨(refresh_run_steps_eq_monitor [] [⟨1, 1⟩]).1,
    (refresh_run_steps_eq_monitor [] [⟨1, 1⟩]).2 (by decide)⟩

/-! ## Dispatcher and run-executor claims -/

theorem handle_tool_calls_no_cancel (tools : List OpenAITool) :
    ∀ (calls : List ToolCall),
    (∀ tc ∈ calls,
      isCancelResult (call_function_tool tools tc.name tc.arguments) = false) →
    handle_tool_calls tools calls
      = .ok (calls.map (fun tc => ⟨tc.id, outputFor tools tc⟩)) := by
  intro calls
  induction calls with
  | nil => intro _; rfl
  | cons tc rest ih =>
    intro h
    have htc := h tc (List.mem_cons_self tc rest)
    have hrest := ih (fun x hx => h x (List.mem_cons_of_mem tc hx))
    unfold handle_tool_calls
    match hcall : call_function_tool tools tc.name tc.arguments with
    | .error (.cancelRun d) => rw [hcall] at htc; simp [isCancelResult] at htc
    | .error (.generic m) =>
      rw [hrest]
      simp [outputFor, hcall, Except.map]
    | .ok out =>
      rw [hrest]
      simp [outputFor, hcall, Except.map]

/-- C1: for a run in `requires_action` with a `submit_tool_outputs` action,
if no tool call raises `CancelRun` then the handler submits exactly one
batch whose outputs correspond one-to-one, in order, to the input tool
calls: the submitted call-id sequence equals the input call-id sequence,
so with distinct call ids every call id is covered exactly once, no matter
how many individual calls raised ordinary exceptions. -/
theorem requires_action_submits_one_output_per_call
    (tools : List OpenAITool) (run : RunObj)
    (hstatus : run.status = "requires_action")
    (htype : run.required_action.type = "submit_tool_outputs")
    (hnc : ∀ tc ∈ run.required_action.tool_calls,
      isCancelResult (call_function_tool tools tc.name tc.arguments) = false) :
    ∃ outs, handle_step_requires_action tools run = .ok (some outs)
      ∧ outs.map ToolOutput.tool_call_id
          = run.required_action.tool_calls.map ToolCall.id
      ∧ outs.length = run.required_action.tool_calls.length
      ∧ ((run.required_action.tool_calls.map ToolCall.id).Nodup →
          ∀ tc ∈ run.required_action.tool_calls,
            (outs.map ToolOutput.tool_call_id).count tc.id = 1) := by
  refine ⟨run.required_action.tool_calls.map
    (fun tc => ⟨tc.id, outputFor tools tc⟩), ?_, ?_, ?_, ?_⟩
  · unfold handle_step_requires_action
    rw [if_pos hstatus, if_pos htype,
      handle_tool_calls_no_cancel tools _ hnc]
    rfl
  · simp
  · simp
  · intro hnd tc htc
    have hmap : (run.required_action.tool_calls.map
        (fun tc => (⟨tc.id, outputFor tools tc⟩ : ToolOutput))).map
          ToolOutput.tool_call_id
        = run.required_action.tool_calls.map ToolCall.id := by simp
    rw [hmap]
    exact List.count_eq_one_of_mem hnd (List.mem_map_of_mem ToolCall.id htc)

/-- C1 witness: a two-call batch where the second call's tool is missing
(an ordinary failure) still submits exactly two outputs, one per call id. -/
theorem requires_action_submits_one_output_per_call_witness :
    ∃ outs, handle_step_requires_action
        [⟨"function", some ⟨"echo", fun _ => .ret "ok"⟩⟩]
        ⟨"requires_action", ⟨"submit_tool_outputs",
          [⟨1, "echo", "{}"⟩, ⟨2, "missing", "{}"⟩]⟩⟩ = .ok (some outs)
      ∧ outs.map ToolOutput.tool_call_id = [1, 2]
      ∧ outs.length = 2
      ∧ (([1, 2] : List Nat).Nodup →
          ∀ tc ∈ [(⟨1, "echo", "{}"⟩ : ToolCall), ⟨2, "missing", "{}"⟩],
            (outs.map ToolOutput.tool_call_id).count tc.id = 1) :=
  requires_action_submits_one_output_per_call
    [⟨"function", some ⟨"echo", fun _ => .ret "ok"⟩⟩]
    ⟨"requires_action", ⟨"submit_tool_outputs",
      [⟨1, "echo", "{}"⟩, ⟨2, "missing", "{}"⟩]⟩⟩
    rfl rfl (by decide)

/-- C6: a tool call whose function name is not registered still yields
exactly one output entry for its call id — an error string naming the
missing function — at its own position in the batch, and the sibling calls
are still processed (the whole batch is submitted). -/
theorem unregistered_tool_yields_error_output
    (tools : List OpenAITool) (run : RunObj)
    (hstatus : run.status = "requires_action")
    (htype : run.required_action.type = "submit_tool_outputs")
    (hnc : ∀ tc ∈ run.required_action.tool_calls,
      isCancelResult (call_function_tool tools tc.name tc.arguments) = false)
    (i : Nat) (hi : i < run.required_action.tool_calls.length)
    (hmiss : findTool tools
      (run.required_action.tool_calls.get ⟨i, hi⟩).name = none) :
    ∃ outs, handle_step_requires_action tools run = .ok (some outs)
      ∧ outs.length = run.required_action.tool_calls.length
      ∧ outs[i]? = some
          ⟨(run.required_action.tool_calls.get ⟨i, hi⟩).id,
            "Error calling function "
              ++ (run.required_action.tool_calls.get ⟨i, hi⟩).name
              ++ ": "
              ++ ("Could not find function \x27"
                ++ (run.required_action.tool_calls.get ⟨i, hi⟩).name
                ++ "\x27")⟩ := by
  obtain ⟨outs, hok, hmap, hlen, -⟩ :=
    requires_action_submits_one_output_per_call tools run hstatus htype hnc
  refine ⟨outs, hok, hlen, ?_⟩
  have houts : outs = run.required_action.tool_calls.map
      (fun tc => ⟨tc.id, outputFor tools tc⟩) := by
    unfold handle_step_requires_action at hok
    rw [if_pos hstatus, if_pos htype,
      handle_tool_calls_no_cancel tools _ hnc] at hok
    simpa [Except.map] using hok.symm
  subst houts
  rw [List.getElem?_map]
  have hget : run.required_action.tool_calls[i]?
      = some (run.required_action.tool_calls.get ⟨i, hi⟩) := by
    simp [List.getElem?_eq_getElem hi]
  rw [hget]
  have hout : outputFor tools (run.required_action.tool_calls.get ⟨i, hi⟩)
      = "Error calling function "
          ++ (run.required_action.tool_calls.get ⟨i, hi⟩).name
          ++ ": "
          ++ ("Could not find function \x27"
            ++ (run.required_action.tool_calls.get ⟨i, hi⟩).name
            ++ "\x27") := by
    unfold outputFor call_function_tool
    rw [hmiss]
  simp only [Option.map_some', Option.some.injEq]
  rw [hout]

/-- C6 witness: an unregistered call `foo` in a batch of two gets the error
output naming `foo` at its position while the sibling is still resolved. -/
theorem unregistered_tool_yields_error_output_witness :
    ∃ outs, handle_step_requires_action
        [⟨"function", some ⟨"echo", fun _ => .ret "ok"⟩⟩]
        ⟨"requires_action", ⟨"submit_tool_outputs",
          [⟨7, "foo", "{}"⟩, ⟨8, "echo", "{}"⟩]⟩⟩ = .ok (some outs)
      ∧ outs.length = 2
      ∧ outs[0]? = some ⟨7,
          "Error calling function foo: Could not find function \x27foo\x27"⟩ :=
  unregistered_tool_yields_error_output
    [⟨"function", some ⟨"echo", fun _ => .ret "ok"⟩⟩]
    ⟨"requires_action", ⟨"submit_tool_outputs",
      [⟨7, "foo", "{}"⟩, ⟨8, "echo", "{}"⟩]⟩⟩
    rfl rfl (by decide) 0 (by decide) rfl

/-- C2: evaluation of `run_async` at the failing input — a `requires_action`
run with three tool calls whose second call raises `CancelRun(42)`.  The
code submits no outputs for the batch, issues the remote cancel, stores the
payload 42 as the run's data, and polls no further — but because the final
`self.refresh_async()` (openai_run.py line 226) is never awaited, the local
run is not refreshed, so the status the caller observes is still
`requires_action`, not `cancelled` as the specification states. -/
theorem cancel_signal_stale_status_eval :
    (run_async_loop
      [⟨"function", some ⟨"ok_tool", fun _ => .ret "fine"⟩⟩,
        ⟨"function", some ⟨"cancel_tool", fun _ => .cancel 42⟩⟩]
      ⟨"requires_action", ⟨"submit_tool_outputs",
        [⟨1, "ok_tool", "{}"⟩, ⟨2, "cancel_tool", "{}"⟩,
          ⟨3, "ok_tool", "{}"⟩]⟩⟩
      (.dict none) [] [⟨"cancelled", ⟨"", []⟩⟩]).map
        (fun fin => (fin.run.status, fin.data, fin.submissions,
          fin.cancelIssued))
      = some ("requires_action", .payload 42, [], true)
    ∧ "requires_action" ≠ "cancelled" := by
  constructor
  · rfl
  · decide

/-- C3 (amended): absent a `CancelRun`, the polling loop of `run_async`
never stops while the local status is one of the three non-terminal values
`queued`/`in_progress`/`requires_action`, and it is guaranteed to stop once
the status trace reaches one of `completed`/`failed`/`cancelled`/`expired`;
however termination only means the status left the non-terminal trio — a
status outside both sets (such as `cancelling`) also ends the loop. -/
theorem poll_loop_termination
    (tools : List OpenAITool) (r0 : RunObj) (dat : RunData)
    (subs : List (List ToolOutput)) (trace : List RunObj)
    (hnc : ∀ r ∈ r0 :: trace, ∀ d,
      handle_step_requires_action tools r ≠ .error d) :
    (∀ fin, run_async_loop tools r0 dat subs trace = some fin →
        fin.run.status ∉ nonTerminalStatuses)
    ∧ ((r0.status ∈ specTerminalStatuses
          ∨ ∃ r ∈ trace, r.status ∈ specTerminalStatuses) →
        (run_async_loop tools r0 dat subs trace).isSome) := by
  induction trace generalizing r0 dat subs with
  | nil =>
    constructor
    · intro fin hfin
      unfold run_async_loop at hfin
      by_cases hg : r0.status ∈ nonTerminalStatuses
      · rw [if_pos hg] at hfin
        match hh : (if r0.status = "requires_action" then
            handle_step_requires_action tools r0 else .ok none) with
        | .error d =>
          by_cases hra : r0.status = "requires_action"
          · rw [if_pos hra] at hh
            exact absurd hh (hnc r0 (List.mem_cons_self _ _) d)
          · rw [if_neg hra] at hh
            cases hh
        | .ok batch =>
          rw [hh] at hfin
          cases hfin
      · rw [if_neg hg] at hfin
        cases hfin
        exact hg
    · intro hterm
      rcases hterm with hterm | ⟨r, hr, -⟩
      · unfold run_async_loop
        by_cases hg : r0.status ∈ nonTerminalStatuses
        · exfalso
          simp [nonTerminalStatuses] at hg
          simp [specTerminalStatuses] at hterm
          rcases hg with h | h | h <;> rw [h] at hterm <;> simp at hterm
        · rw [if_neg hg]
          rfl
      · cases hr
  | cons r1 rest ih =>
    have hnc1 : ∀ r ∈ r1 :: rest, ∀ d,
        handle_step_requires_action tools r ≠ .error d := by
      intro r hr d
      exact hnc r (List.mem_cons_of_mem r0 hr) d
    constructor
    · intro fin hfin
      unfold run_async_loop at hfin
      by_cases hg : r0.status ∈ nonTerminalStatuses
      · rw [if_pos hg] at hfin
        match hh : (if r0.status = "requires_action" then
            handle_step_requires_action tools r0 else .ok none) with
        | .error d =>
          by_cases hra : r0.status = "requires_action"
          · rw [if_pos hra] at hh
            exact absurd hh (hnc r0 (List.mem_cons_self _ _) d)
          · rw [if_neg hra] at hh
            cases hh
        | .ok batch =>
          rw [hh] at hfin
          exact (ih r1 _ _ hnc1).1 fin hfin
      · rw [if_neg hg] at hfin
        cases hfin
        exact hg
    · intro hterm
      unfold run_async_loop
      by_cases hg : r0.status ∈ nonTerminalStatuses
      · rw [if_pos hg]
        match hh : (if r0.status = "requires_action" then
            handle_step_requires_action tools r0 else .ok none) with
        | .error d =>
          by_cases hra : r0.status = "requires_action"
          · rw [if_pos hra] at hh
            exact absurd hh (hnc r0 (List.mem_cons_self _ _) d)
          · rw [if_neg hra] at hh
            cases hh
        | .ok batch =>
          apply (ih r1 _ _ hnc1).2
          rcases hterm with hterm | ⟨r, hr, hrt⟩
          · exfalso
            simp [nonTerminalStatuses] at hg
            simp [specTerminalStatuses] at hterm
            rcases hg with h | h | h <;> rw [h] at hterm <;> simp at hterm
          · rcases List.mem_cons.mp hr with rfl | hr2
            · exact Or.inl hrt
            · exact Or.inr ⟨r, hr2, hrt⟩
      · rw [if_neg hg]
        rfl

/-- C3 counterexample: a run whose very first observed status is
`cancelling` ends the loop at once, although the status never reaches any
of `completed`/`failed`/`cancelled`/`expired` — refuting "terminates only
if the status reaches one of those four". -/
theorem poll_loop_exit_without_terminal_cex :
    run_async_loop [] ⟨"cancelling", ⟨"", []⟩⟩ (.dict none) [] []
        = some ⟨⟨"cancelling", ⟨"", []⟩⟩, .dict none, [], false⟩
    ∧ "cancelling" ∉ specTerminalStatuses
    ∧ "cancelling" ∉ nonTerminalStatuses := by
  refine ⟨rfl, by decide, by decide⟩

/-- C3 witness: the amended termination theorem applied to a concrete
two-poll trace ending in `completed`. -/
theorem poll_loop_termination_witness :
    (∀ fin, run_async_loop [] ⟨"queued", ⟨"", []⟩⟩ (.dict none) []
          [⟨"in_progress", ⟨"", []⟩⟩, ⟨"completed", ⟨"", []⟩⟩] = some fin →
        fin.run.status ∉ nonTerminalStatuses)
    ∧ ((("queued" : String) ∈ specTerminalStatuses
          ∨ ∃ r ∈ [(⟨"in_progress", ⟨"", []⟩⟩ : RunObj),
              ⟨"completed", ⟨"", []⟩⟩], r.status ∈ specTerminalStatuses) →
        (run_async_loop [] ⟨"queued", ⟨"", []⟩⟩ (.dict none) []
          [⟨"in_progress", ⟨"", []⟩⟩, ⟨"completed", ⟨"", []⟩⟩]).isSome) :=
  poll_loop_termination [] ⟨"queued", ⟨"", []⟩⟩ (.dict none) []
    [⟨"in_progress", ⟨"", []⟩⟩, ⟨"completed", ⟨"", []⟩⟩]
    (by intro r hr d
        fin_cases hr <;> simp [handle_step_requires_action])

/-! ## Annotation, chat and monitor claims -/

/-- C7 counterexample: a message `"Hello X"` carrying one annotation whose
literal text `"X"` is well-formed but whose `file_citation` part is
malformed (reading its `file_id` raises).  Removal succeeds and strips
`"X"`; extraction fails internally and falls back to `[]`; the operation
returns the CLEANED text `"Hello "` with no citations — not the original,
unmodified text the claim requires on an internal failure. -/
theorem annotation_clean_cleaned_not_original_cex :
    remove_and_extract_from_message (fun _ => .error ())
        ⟨0, [⟨some ⟨"Hello X",
          [⟨some "X", some ⟨.error (), "q"⟩, none⟩]⟩⟩]⟩
      = .ok ⟨"Hello ", []⟩
    ∧ ("Hello " : String) ≠ "Hello X" := by
  refine ⟨rfl, by decide⟩

/-- C7 (amended): for a message whose first content block has a text part,
`remove_and_extract_from_message` never raises; when the removal phase
raises (e.g. a malformed annotation text) it returns the original,
unmodified text with an empty citation list; when only the extraction
phase fails it returns the cleaned text (annotation markers removed) with
an empty citation list — not the original text. -/
theorem annotation_clean_fallback (lookup : FileLookup)
    (message : ThreadMessage) (b : ContentBlock) (tb : TextBlock)
    (hhead : message.content.head? = some b) (htext : b.text = some tb) :
    (∃ r, remove_and_extract_from_message lookup message = .ok r)
    ∧ (remove_from_message message = .error () →
        remove_and_extract_from_message lookup message = .ok ⟨tb.value, []⟩)
    ∧ (∀ c, remove_from_message message = .ok c →
        remove_and_extract_from_message lookup message
          = .ok ⟨c, extract_from_message lookup message⟩) := by
  match hrem : remove_from_message message with
  | .ok c =>
    have hres : remove_and_extract_from_message lookup message
        = .ok ⟨c, extract_from_message lookup message⟩ := by
      unfold remove_and_extract_from_message
      simp only [hrem]
    refine ⟨⟨_, hres⟩, ?_, ?_⟩
    · intro hc; cases hc
    · intro c2 hc2
      cases hc2
      exact hres
  | .error u =>
    have hres : remove_and_extract_from_message lookup message
        = .ok ⟨tb.value, []⟩ := by
      unfold remove_and_extract_from_message
      simp only [hrem, hhead, htext]
    refine ⟨⟨_, hres⟩, fun _ => hres, ?_⟩
    intro c2 hc2
    cases hc2

/-- C7 witness: a malformed annotation whose `text` is not a string makes
the removal phase raise, and the operation returns the original text with
no citations. -/
theorem annotation_clean_fallback_witness :
    (∃ r, remove_and_extract_from_message (fun _ => .error ())
        ⟨0, [⟨some ⟨"Hi X", [⟨none, none, none⟩]⟩⟩]⟩ = .ok r)
    ∧ remove_and_extract_from_message (fun _ => .error ())
        ⟨0, [⟨some ⟨"Hi X", [⟨none, none, none⟩]⟩⟩]⟩ = .ok ⟨"Hi X", []⟩ :=
  ⟨(annotation_clean_fallback (fun _ => .error ())
      ⟨0, [⟨some ⟨"Hi X", [⟨none, none, none⟩]⟩⟩]⟩
      ⟨some ⟨"Hi X", [⟨none, none, none⟩]⟩⟩ ⟨"Hi X", [⟨none, none, none⟩]⟩
      rfl rfl).1,
    (annotation_clean_fallback (fun _ => .error ())
      ⟨0, [⟨some ⟨"Hi X", [⟨none, none, none⟩]⟩⟩]⟩
      ⟨some ⟨"Hi X", [⟨none, none, none⟩]⟩⟩ ⟨"Hi X", [⟨none, none, none⟩]⟩
      rfl rfl).2.1 rfl⟩

/-- C8: whenever the conversational turn itself fails (any exception inside
the `try` of `ChatService.chat`, surfaced as `str(e)`), the service returns
— rather than raises — a response whose assistant message content is the
fixed friendly fallback text, whose metadata records the underlying error
string, and whose success flag is false. -/
theorem chat_returns_fallback_on_turn_error (conversation_id : Option String)
    (conversationFound : Bool) (e : String)
    (hconv : conversation_id = none ∨ conversation_id = some ""
      ∨ conversationFound = true) :
    chatService true true conversation_id conversationFound (.error e)
      = ⟨false, ⟨⟨"ASSISTANT", fallbackErrorMessage, some e⟩,
          conversation_id.getD ""⟩, none⟩ := by
  unfold chatService
  have hcond : ¬(conversation_id ≠ none ∧ conversation_id ≠ some ""
      ∧ (!conversationFound) = true) := by
    rcases hconv with h | h | h <;> simp [h]
  rw [if_neg (by simp), if_neg (by simp), if_neg hcond]

/-- C8 witness: a failing turn with a fresh conversation id. -/
theorem chat_returns_fallback_on_turn_error_witness :
    chatService true true none false (.error "boom")
      = ⟨false, ⟨⟨"ASSISTANT", fallbackErrorMessage, some "boom"⟩, ""⟩,
          none⟩ :=
  chat_returns_fallback_on_turn_error none false "boom" (Or.inl rfl)

/-- C10: in a `get_latest_messages` pass, a full (page-size 20) fetched page
is never part of the returned list: the loop merely advances
`last_message_id` to the page's last populated message and continues, so
the result equals that of the continuation pass; only a short final page is
returned (after filtering). -/
theorem get_latest_messages_returns_final_page (feed : List ThreadMessage)
    (last_message_id : Option Nat) (fuel : Nat) :
    ((get_messages feed last_message_id 20).length = 20 →
      get_latest_messages feed last_message_id (fuel + 1)
        = get_latest_messages feed
          (match (filterPopulated
              (get_messages feed last_message_id 20)).getLast? with
            | some m => some m.id
            | none => last_message_id) fuel)
    ∧ ((get_messages feed last_message_id 20).length < 20 →
      get_latest_messages feed last_message_id (fuel + 1)
        = some (filterPopulated (get_messages feed last_message_id 20),
          match (filterPopulated
              (get_messages feed last_message_id 20)).getLast? with
            | some m => some m.id
            | none => last_message_id)) := by
  constructor
  · intro hfull
    conv_lhs => rw [get_latest_messages]
    rw [if_neg (by omega)]
  · intro hshort
    conv_lhs => rw [get_latest_messages]
    rw [if_pos hshort]

set_option maxRecDepth 10000 in
/-- C10 witness: a 21-message feed whose first page is exactly full; the
pass discards the first page's twenty populated messages from the return
value while the cursor advances past them, and returns only the final
short page. -/
theorem get_latest_messages_returns_final_page_witness :
    get_latest_messages
        ((List.range 21).map (fun n => ⟨n + 1, [⟨some ⟨"m", []⟩⟩]⟩)) none 2
      = get_latest_messages
        ((List.range 21).map (fun n => ⟨n + 1, [⟨some ⟨"m", []⟩⟩]⟩))
        (match (filterPopulated (get_messages
            ((List.range 21).map (fun n => ⟨n + 1, [⟨some ⟨"m", []⟩⟩]⟩))
            none 20)).getLast? with
          | some m => some m.id
          | none => none) 1 :=
  (get_latest_messages_returns_final_page
    ((List.range 21).map (fun n => ⟨n + 1, [⟨some ⟨"m", []⟩⟩]⟩))
    none 1).1 (by decide)

end OpenAILink
